import Mathlib

/-!
Shallow embedding of the Swarm Observer reconciliation engine
(`src/server.js`): event normalization, the agent registry, the status
hold-timer state machine, task-delegation correlation, role inference
from file paths, ring buffers, inbox diffing and the events-file
ingestor.  JavaScript strings are modelled by `String` (ASCII-faithful;
`.length` is the character count, which agrees with JS UTF-16 length on
the inputs considered), JS `undefined`/`null` by `Option`, and JS
truthiness of strings by non-emptiness.  All calls to `Date.now()`
inside one handler are modelled by a single `now : Nat` parameter, and
the `Math.random()` ids by explicit id parameters.
-/

namespace SwarmObserver

/-- JS `a || d` for an optional string `a` (empty string is falsy). -/
def jsOr (a : Option String) (d : String) : String :=
  match a with
  | some s => if s = "" then d else s
  | none => d

/-- JS `a || b` where both sides are optional strings and the result may
be `null`/`undefined` (empty string is falsy). -/
def jsOrO (a : Option String) (b : Option String) : Option String :=
  match a with
  | some s => if s = "" then b else some s
  | none => b

/-- JS truthiness of an optional string: present and non-empty. -/
def jsTruthy (a : Option String) : Bool :=
  match a with
  | some s => s ≠ ""
  | none => false

/-- JS `x || null` on an optional string: an empty string collapses to `null`. -/
def jsNonEmpty (a : Option String) : Option String :=
  match a with
  | some s => if s = "" then none else some s
  | none => none

/-- `tool_input` object of a raw log event (all fields optional, read
permissively), from the destructuring in `processEvent` and the `Task` /
`SendMessage` blocks of `server.js`. -/
structure ToolInput where
  file_path : Option String := none
  command : Option String := none
  path : Option String := none
  description : Option String := none
  prompt : Option String := none
  task : Option String := none
  message : Option String := none
  content : Option String := none
  toId : Option String := none
deriving Repr, DecidableEq

/-- `tool_response` object of a raw log event.  `filenames` holds the
JSON-serialized form of the `filenames` array (the code only uses
`JSON.stringify(resp.filenames).length`). -/
structure ToolResponse where
  fileContent : Option String := none
  stdout : Option String := none
  filenames : Option String := none
deriving Repr, DecidableEq

/-- A raw newline-delimited-JSON log event as consumed by
`processEvent` (`server.js` lines 483-496): loosely typed, every field
optional.  `tokens` is a JS number, modelled as `Int`. -/
structure Event where
  session_id : Option String := none
  sessionId : Option String := none
  hook_event_name : Option String := none
  event : Option String := none
  type : Option String := none
  tool_name : Option String := none
  tool : Option String := none
  tool_input : Option ToolInput := none
  tool_response : Option ToolResponse := none
  cwd : Option String := none
  working_directory : Option String := none
  model : Option String := none
  source : Option String := none
  tokens : Option Int := none
deriving Repr, DecidableEq

/-- An agent record (`knownAgents` entry, `server.js` lines 453-467).
The JS underscore-prefixed bookkeeping fields `_statusSetAt`,
`_taskLabel` and `_filePaths` are `statusSetAt`, `taskLabel` and
`filePaths`. -/
structure Agent where
  id : String
  shortId : String
  label : String
  role : String
  color : String
  status : String
  lastTool : Option String := none
  lastFile : Option String := none
  lastActive : Nat
  tokens : Int := 0
  toolCalls : Nat := 0
  firstSeen : Nat
  cwd : Option String := none
  statusSetAt : Option Nat := none
  taskLabel : Option String := none
  filePaths : List String := []
  activity : Option String := none
deriving Repr, DecidableEq

/-- An inter-agent message (`recentMessages` entry). -/
structure Message where
  id : String
  fromId : String
  toId : String
  text : String
  timestamp : Nat
deriving Repr, DecidableEq

/-- A normalized activity record (`recentEvents` entry, `server.js`
lines 654-664). -/
structure EventRecord where
  id : String
  agentId : String
  event : String
  tool : Option String
  file : Option String
  status : String
  activity : Option String
  timestamp : Nat
  tokens : Int
deriving Repr, DecidableEq

/-- A pending-task correlation record (`pendingTasks` entry,
`server.js` lines 595-601). -/
structure PendingTask where
  fromId : String
  label : String
  fullDesc : String
  cwd : Option String
  timestamp : Nat
deriving Repr, DecidableEq

/-- A broadcast frame pushed to all subscribers (only the frames
produced by `processEvent` are modelled). -/
inductive Broadcast where
  | agent_join (agent : Agent)
  | event (record : EventRecord) (agentUpdate : Agent)
  | message (m : Message)
deriving Repr, DecidableEq

/-- The server's mutable module state relevant to event processing:
`knownAgents` (insertion-ordered map), the two ring buffers, the palette
cursor and the pending-task queue. -/
structure ServerState where
  knownAgents : List (String × Agent) := []
  recentEvents : List EventRecord := []
  recentMessages : List Message := []
  colorIndex : Nat := 0
  pendingTasks : List PendingTask := []
deriving Repr, DecidableEq

/-- `MAX_EVENTS` (`server.js` line 291). -/
def MAX_EVENTS : Nat := 500

/-- `MAX_MESSAGES` (`server.js` line 292). -/
def MAX_MESSAGES : Nat := 100

/-- The fixed color palette (`server.js` lines 295-300). -/
def PALETTE : List String :=
  ["#ff6b35", "#00d4aa", "#7b68ee", "#ffd166", "#ef476f",
   "#06d6a0", "#118ab2", "#e63946", "#a8dadc", "#f4a261",
   "#2a9d8f", "#e76f51", "#264653", "#d4a373", "#cdb4db",
   "#ffc8dd", "#bde0fe", "#a2d2ff", "#caffbf", "#ffd6ff"]

/-- First-match lookup in the insertion-ordered agent map (JS
`Map.get`). -/
def lookupA : List (String × Agent) → String → Option Agent
  | [], _ => none
  | (k, a) :: rest, key => if k = key then some a else lookupA rest key

/-- Replace the value stored at a key (JS mutation of the object held in
the map); keys and order are unchanged. -/
def updateA : List (String × Agent) → String → Agent → List (String × Agent)
  | [], _, _ => []
  | (k, a) :: rest, key, v =>
    if k = key then (k, v) :: rest else (k, a) :: updateA rest key v

/-- The keys of the agent map, in insertion order. -/
def keysA (m : List (String × Agent)) : List String := m.map Prod.fst

/-- Hints passed to `getOrCreateAgent` (the `extra` parameter). -/
structure Hints where
  label : Option String := none
  role : Option String := none
  cwd : Option String := none
deriving Repr, DecidableEq

/-- Result of `getOrCreateAgent`: the updated state, the returned agent
record, and the broadcasts emitted. -/
structure GetResult where
  state : ServerState
  agent : Agent
  outs : List Broadcast
deriving Repr, DecidableEq

/-- `label.startsWith("Agent ")`, modelled on the character list (JS
`String.prototype.startsWith` with the literal placeholder prefix). -/
def startsWithAgent (s : String) : Bool := ("Agent ".data).isPrefixOf s.data

/-- `getOrCreateAgent(sessionId, extra)` (`server.js` lines 447-481):
creates an agent with placeholder label `"Agent " + id.substring(0,8)`,
default role `"worker"`, the next cyclic palette color and status
`"idle"`, broadcasting `agent_join` exactly once; for a known id it
conservatively applies hints (a truthy hinted label only overwrites a
label starting with `"Agent "`, a truthy hinted role only overwrites the
default `"worker"`). -/
def getOrCreateAgent (st : ServerState) (sessionId : String) (extra : Hints)
    (now : Nat) : GetResult :=
  match lookupA st.knownAgents sessionId with
  | none =>
    let shortId := sessionId.take 8
    let color := PALETTE.getD (st.colorIndex % PALETTE.length) ""
    let a : Agent :=
      { id := sessionId
        shortId := shortId
        label := jsOr extra.label ("Agent " ++ shortId)
        role := jsOr extra.role "worker"
        color := color
        status := "idle"
        lastTool := none
        lastFile := none
        lastActive := now
        tokens := 0
        toolCalls := 0
        firstSeen := now
        cwd := jsNonEmpty extra.cwd }
    ⟨{ st with knownAgents := st.knownAgents ++ [(sessionId, a)]
               colorIndex := st.colorIndex + 1 },
     a, [Broadcast.agent_join a]⟩
  | some aOld =>
    let label :=
      if jsTruthy extra.label ∧ startsWithAgent aOld.label then
        extra.label.getD "" else aOld.label
    let role :=
      if jsTruthy extra.role ∧ aOld.role = "worker" then
        extra.role.getD "" else aOld.role
    let a := { aOld with label := label, role := role }
    ⟨{ st with knownAgents := updateA st.knownAgents sessionId a }, a, []⟩

/-- `STATUS_HOLD_MS` (`server.js` line 501). -/
def STATUS_HOLD_MS : Nat := 3000

/-- The active status computed from the tool name on a pre-tool event
(`server.js` lines 505-514). -/
def toolStatusOf (toolName : Option String) : String :=
  if toolName = some "Read" ∨ toolName = some "Grep" ∨ toolName = some "Glob"
      ∨ toolName = some "ListDir" then "reading"
  else if toolName = some "Write" ∨ toolName = some "Edit" then "writing"
  else if toolName = some "Task" ∨ toolName = some "SendMessage" then "delegating"
  else if toolName = some "Bash" then "tool_call"
  else "tool_call"

/-- The status block of `processEvent` (`server.js` lines 498-533): the
hysteresis state machine with hold timer.  `agent._statusSetAt || 0` is
`(a.statusSetAt.getD 0)`; the JS comparison `now - setAt >= 3000` agrees
with truncated `Nat` subtraction (a negative JS difference and a
truncated zero both fail the test). -/
def applyStatus (a : Agent) (hookEvent : String) (toolName : Option String)
    (now : Nat) : Agent :=
  if hookEvent = "pre_tool" ∨ hookEvent = "PreToolUse" then
    { a with status := toolStatusOf toolName, statusSetAt := some now }
  else if hookEvent = "post_tool" ∨ hookEvent = "PostToolUse" then
    if STATUS_HOLD_MS ≤ now - (a.statusSetAt.getD 0) then
      { a with status := "thinking" }
    else a
  else if hookEvent = "stop" ∨ hookEvent = "Stop" then
    { a with status := "done" }
  else if hookEvent = "session_start" ∨ hookEvent = "SessionStart" then
    { a with status := "starting" }
  else if hookEvent = "subagent_stop" ∨ hookEvent = "SubagentStop" then
    { a with status := "done" }
  else if hookEvent = "task_done" ∨ hookEvent = "TaskCompleted" then
    { a with status := "done" }
  else a

/-- JS `\s` on the ASCII range (space, tab, LF, VT, FF, CR), used by the
`.replace(/\s+/g, " ")` and `.trim()` steps of `summarizeTask`. -/
def isWsJS (c : Char) : Bool :=
  c = ' ' ∨ c = '\t' ∨ c = '\n' ∨ c = '\r' ∨ c = '\x0b' ∨ c = '\x0c'

/-- `.replace(/\s+/g, " ")`: every maximal run of whitespace collapses
to a single space.  `prevWs` records whether the previous character was
whitespace (so the run's later characters are dropped). -/
def collapseWsAux : Bool → List Char → List Char
  | _, [] => []
  | prevWs, c :: rest =>
    if isWsJS c then
      if prevWs then collapseWsAux true rest
      else ' ' :: collapseWsAux true rest
    else c :: collapseWsAux false rest

/-- JS `String.prototype.trim` (ASCII whitespace). -/
def trimJS (l : List Char) : List Char :=
  ((l.dropWhile isWsJS).reverse.dropWhile isWsJS).reverse

/-- Last index of `' '` in a character list, or `none` (JS
`lastIndexOf(" ")` returning `-1` is `none`). -/
def lastIndexOfSpace : List Char → Option Nat
  | [] => none
  | c :: rest =>
    match lastIndexOfSpace rest with
    | some i => some (i + 1)
    | none => if c = ' ' then some 0 else none

/-- The `cleaned`/`first` computation of `summarizeTask` (`server.js`
lines 680-685): replace newlines by spaces, collapse whitespace runs,
trim, cut at the first `.`, `!`, `?` or newline, trim again. -/
def firstClause (text : String) : String :=
  let cleaned :=
    trimJS (collapseWsAux false
      (text.data.map (fun c => if c = '\n' then ' ' else c)))
  let first := cleaned.takeWhile
    (fun c => ¬ (c = '.' ∨ c = '!' ∨ c = '?' ∨ c = '\n'))
  String.mk (trimJS first)

/-- `summarizeTask` (`server.js` lines 678-693). -/
def summarizeTask (text : String) : String :=
  let first := firstClause text
  if first.length ≤ 32 then first
  else
    let truncated := first.take 40
    match lastIndexOfSpace truncated.data with
    | some lastSpace =>
      if 15 < lastSpace then String.mk (truncated.data.take lastSpace) ++ "…"
      else truncated ++ "…"
    | none => truncated ++ "…"

/-- One category of `inferRoleFromFiles`: the label together with the
regex's alternation, as an ordered list of literal strings (each of the
eight regexes in `server.js` lines 700-709 is a plain alternation of
literals once `\.` is read as a literal dot and `\/` as a slash). -/
structure RolePattern where
  label : String
  alts : List String
deriving Repr, DecidableEq

/-- The fixed ordered pattern list of `inferRoleFromFiles`
(`server.js` lines 700-709). -/
def rolePatterns : List RolePattern :=
  [⟨"Tests", ["test", "spec", "__test__", ".test.", ".spec."]⟩,
   ⟨"API", ["api", "route", "endpoint", "controller", "handler"]⟩,
   ⟨"Frontend", ["component", "page", "view", "layout", ".tsx", ".jsx", ".vue", ".svelte"]⟩,
   ⟨"Database", ["migration", "schema", "model", "seed", ".sql", "prisma", "drizzle"]⟩,
   ⟨"Config", ["config", ".env", "package.json", "tsconfig", "webpack", "vite"]⟩,
   ⟨"Docs", ["readme", "doc", ".md", "guide", "spec/"]⟩,
   ⟨"DevOps", ["docker", "ci", "deploy", ".yml", ".yaml", "terraform", "k8s"]⟩,
   ⟨"Styles", [".css", ".scss", "tailwind", "theme", "style"]⟩]

/-- The first alternative (in declaration order) matching at the head of
`s`, returning its length — JS regex alternation preference. -/
def firstAltLen : List (List Char) → List Char → Option Nat
  | [], _ => none
  | a :: rest, s => if a.isPrefixOf s then some a.length else firstAltLen rest s

/-- Count the global matches of a literal alternation over `s`, scanning
left to right and jumping past each match (JS `"...".match(/a|b|.../g)`
semantics for non-empty literal alternatives).  `fuel` is initialised to
`s.length`, which suffices because every step consumes at least one
character. -/
def countMatchesAux (alts : List (List Char)) : Nat → List Char → Nat
  | 0, _ => 0
  | _ + 1, [] => 0
  | fuel + 1, c :: rest =>
    match firstAltLen alts (c :: rest) with
    | some n => 1 + countMatchesAux alts fuel ((c :: rest).drop n)
    | none => countMatchesAux alts fuel rest

/-- `joined.match(p.re)` count for one pattern. -/
def countMatches (alts : List (List Char)) (s : List Char) : Nat :=
  countMatchesAux alts s.length s

/-- The `joined` string of `inferRoleFromFiles`:
`paths.join("\n").toLowerCase()` (ASCII lowering). -/
def joinedOf (paths : List String) : List Char :=
  (String.intercalate "\n" paths).data.map Char.toLower

/-- Each pattern's label paired with its match count over the joined
lower-cased path history. -/
def countedPatterns (paths : List String) : List (String × Nat) :=
  rolePatterns.map (fun p => (p.label, countMatches (p.alts.map String.data) (joinedOf paths)))

/-- The `best` / `bestCount` loop of `inferRoleFromFiles` (`server.js`
lines 711-720): strict improvement only, so ties keep the earlier
pattern. -/
def bestLoop : List (String × Nat) → Option String → Nat → Option String × Nat
  | [], best, bestCount => (best, bestCount)
  | (l, c) :: rest, best, bestCount =>
    if bestCount < c then bestLoop rest (some l) c
    else bestLoop rest best bestCount

/-- `inferRoleFromFiles` (`server.js` lines 696-723). -/
def inferRoleFromFiles (paths : List String) : Option String :=
  let r := bestLoop (countedPatterns paths) none 0
  if 2 ≤ r.2 then r.1 else none

/-- `filePath.replace(/\\/g, "/")`. -/
def normalizeSlashes (s : String) : String :=
  String.mk (s.data.map (fun c => if c = '\\' then '/' else c))

/-- The file-pattern tracking block of `processEvent` (`server.js`
lines 547-560): push the slash-normalized path, keep the last 30, and —
only without a task-derived label — apply the inferred role as the label
when the current label still starts with `"Agent "`. -/
def trackFiles (a : Agent) (filePath : Option String) : Agent :=
  if jsTruthy filePath then
    let fps0 := a.filePaths ++ [normalizeSlashes (filePath.getD "")]
    let fps := if 30 < fps0.length then fps0.drop (fps0.length - 30) else fps0
    let a2 := { a with filePaths := fps }
    if a2.taskLabel = none then
      match inferRoleFromFiles fps with
      | some inferred =>
        if startsWithAgent a2.label then { a2 with label := inferred } else a2
      | none => a2
    else a2
  else a

/-- `Math.ceil(n / 4)` for a natural `n`. -/
def ceil4 (n : Nat) : Nat := (n + 3) / 4

/-- The token-estimation block of `processEvent` (`server.js` lines
562-577): length-based estimates from the tool response and input,
overridden by a truthy explicit `evt.tokens`. -/
def estimateTokens (evt : Event) (ti : ToolInput) : Int :=
  let fromResp : Nat :=
    match evt.tool_response with
    | some resp =>
      if jsTruthy resp.fileContent then ceil4 (resp.fileContent.getD "").length
      else if jsTruthy resp.stdout then ceil4 (resp.stdout.getD "").length
      else
        match resp.filenames with
        | some s => ceil4 s.length
        | none => 0
    | none => 0
  let est : Nat :=
    fromResp + (if jsTruthy ti.content then ceil4 (ti.content.getD "").length else 0)
  match evt.tokens with
  | some t => if t ≠ 0 then t else (est : Int)
  | none => (est : Int)

/-- Normalized session id: `evt.session_id || evt.sessionId ||
"unknown"` (`server.js` line 485). -/
def sessionIdOf (evt : Event) : String :=
  jsOr evt.session_id (jsOr evt.sessionId "unknown")

/-- Normalized event kind: `evt.hook_event_name || evt.event ||
evt.type || "unknown"` (line 486). -/
def hookEventOf (evt : Event) : String :=
  jsOr evt.hook_event_name (jsOr evt.event (jsOr evt.type "unknown"))

/-- Normalized tool name: `evt.tool_name || evt.tool || null` (line 487). -/
def toolNameOf (evt : Event) : Option String :=
  jsOrO evt.tool_name (jsOrO evt.tool none)

/-- `evt.tool_input || {}` (line 488). -/
def toolInputOf (evt : Event) : ToolInput :=
  evt.tool_input.getD {}

/-- `toolInput.file_path || toolInput.command || toolInput.path || null`
(line 489). -/
def filePathOf (ti : ToolInput) : Option String :=
  jsOrO ti.file_path (jsOrO ti.command (jsOrO ti.path none))

/-- `evt.cwd || evt.working_directory || null` (line 490). -/
def cwdOf (evt : Event) : Option String :=
  jsOrO evt.cwd (jsOrO evt.working_directory none)

/-- `s.replace("claude-", "")`: remove the first occurrence of the
literal pattern. -/
def removeFirstClaudeDash : List Char → List Char
  | [] => []
  | c :: rest =>
    if ("claude-".data).isPrefixOf (c :: rest) then
      (c :: rest).drop ("claude-".data).length
    else c :: removeFirstClaudeDash rest

/-- JS `s.replace` with the regex "dash then digits at end of string"
and empty replacement: strip one trailing dash-and-digits suffix when
present. -/
def stripTrailingDashNum (s : List Char) : List Char :=
  let rev := s.reverse
  let digits := rev.takeWhile Char.isDigit
  if digits = [] then s
  else
    match rev.drop digits.length with
    | '-' :: rest2 => rest2.reverse
    | _ => s

/-- The model-derived label hint of `processEvent` (line 494): the
model name with the `claude-` prefix and any trailing dash-digits
version removed, a space, then the first 6 characters of the session
id. -/
def modelLabelOf (m sessionId : String) : String :=
  String.mk (stripTrailingDashNum (removeFirstClaudeDash m.data)) ++ " " ++ sessionId.take 6

/-- The hints `processEvent` passes to `getOrCreateAgent` (lines
492-496). -/
def hintsOf (evt : Event) (sessionId : String) : Hints :=
  { label :=
      match evt.model with
      | some m => if m = "" then none else some (modelLabelOf m sessionId)
      | none => none
    role := if evt.source = some "startup" then some "lead" else none
    cwd := cwdOf evt }

/-- JS `String.prototype.split` with a single-character separator, on a
character list. -/
def splitOnChar (sep : Char) : List Char → List (List Char)
  | [] => [[]]
  | c :: rest =>
    if c = sep then [] :: splitOnChar sep rest
    else
      match splitOnChar sep rest with
      | t :: ts => (c :: t) :: ts
      | [] => [[c]]

/-- The activity-line block of `processEvent` (lines 536-539). -/
def applyActivity (a : Agent) (hookEvent : String) (toolName : Option String)
    (filePath : Option String) : Agent :=
  if jsTruthy toolName ∧ (hookEvent = "pre_tool" ∨ hookEvent = "PreToolUse") then
    let shortFile :=
      if jsTruthy filePath then
        String.mk (((splitOnChar '/' (normalizeSlashes (filePath.getD "")).data).getLast?).getD [])
      else ""
    let act := if shortFile = "" then toolName.getD ""
               else toolName.getD "" ++ " → " ++ shortFile
    { a with activity := some act }
  else a

/-- Result of the Task-delegation block: the pending queue after a
possible push, and the placeholder-addressed message, if any. -/
structure DelegResult where
  pending : List PendingTask
  message : Option Message
deriving Repr, DecidableEq

/-- The Task-delegation block of `processEvent` (lines 582-611): on a
pre-tool `Task` event with a truthy description, push a pending task and
emit a message to the placeholder recipient `"subagent"`. -/
def delegationStep (hookEvent : String) (toolName : Option String)
    (ti : ToolInput) (a : Agent) (sessionId : String) (now : Nat)
    (mId : String) (pend : List PendingTask) : DelegResult :=
  if toolName = some "Task" ∧ (hookEvent = "pre_tool" ∨ hookEvent = "PreToolUse") then
    let taskDesc :=
      jsOr ti.description (jsOr ti.prompt (jsOr ti.task (jsOr ti.message (jsOr ti.content ""))))
    if taskDesc ≠ "" then
      let taskLabel := summarizeTask taskDesc
      ⟨pend ++ [⟨sessionId, taskLabel, taskDesc.take 200, a.cwd, now⟩],
       some ⟨mId, sessionId, "subagent", taskLabel, now⟩⟩
    else ⟨pend, none⟩
  else ⟨pend, none⟩

/-- The eligibility test of the pending-task search (line 617-619):
age under 15 seconds and a different originating session. -/
def qualB (now : Nat) (sessionId : String) (t : PendingTask) : Bool :=
  decide (now - t.timestamp < 15000) && decide (t.fromId ≠ sessionId)

/-- The predicate of the placeholder-message search (lines 624-626). -/
def msgPredB (p : PendingTask) (m : Message) : Bool :=
  decide (m.fromId = p.fromId) && decide (m.toId = "subagent") && decide (m.text = p.label)

/-- Rewrite the recipient of the first message satisfying `pred` (the
in-place `msg.to = sessionId` after `recentMessages.find`). -/
def rewriteTo (pred : Message → Bool) (newTo : String) : List Message → List Message
  | [] => []
  | m :: rest =>
    if pred m then { m with toId := newTo } :: rest
    else m :: rewriteTo pred newTo rest

/-- Remove the first entry satisfying `pred` (the `indexOf`/`splice`
pair applied to the entry that `find` returned). -/
def eraseFirstP (pred : PendingTask → Bool) : List PendingTask → List PendingTask
  | [] => []
  | t :: rest => if pred t then rest else t :: eraseFirstP pred rest

/-- Result of the session-start matching block. -/
structure MatchResult where
  agent : Agent
  pending : List PendingTask
  msgs : List Message
  outs : List Broadcast
deriving Repr, DecidableEq

/-- The session-start matching block of `processEvent` (lines 613-635):
`pendingTasks.find` selects the first queue entry that is under 15
seconds old and from a different session; on a match the agent is
relabelled (task-derived), the placeholder message is retargeted, the
entry is removed and `agent_join` is re-broadcast. -/
def sessionStartMatch (hookEvent sessionId : String) (a : Agent)
    (pend : List PendingTask) (msgs : List Message) (now : Nat) : MatchResult :=
  if (hookEvent = "session_start" ∨ hookEvent = "SessionStart") ∧ pend ≠ [] then
    match pend.find? (qualB now sessionId) with
    | some p =>
      let a2 := { a with taskLabel := some p.label, label := p.label }
      ⟨a2, eraseFirstP (qualB now sessionId) pend,
       rewriteTo (msgPredB p) sessionId msgs, [Broadcast.agent_join a2]⟩
    | none => ⟨a, pend, msgs, []⟩
  else ⟨a, pend, msgs, []⟩

/-- The SendMessage block of `processEvent` (lines 638-646), which
overwrites the (necessarily absent) delegation message. -/
def sendMessageStep (toolName : Option String) (ti : ToolInput)
    (sessionId : String) (now : Nat) (mId : String)
    (m1 : Option Message) : Option Message :=
  if toolName = some "SendMessage" ∧ jsTruthy ti.toId then
    some ⟨mId, sessionId, ti.toId.getD "", jsOr ti.message (jsOr ti.content "message"), now⟩
  else m1

/-- `buf.push(x); if (buf.length > cap) buf.shift();` — the ring-buffer
push used for `recentEvents` and `recentMessages`. -/
def pushCapped {α : Type} (cap : Nat) (xs : List α) (x : α) : List α :=
  let ys := xs ++ [x]
  if cap < ys.length then ys.tail else ys

/-- The event record built by `processEvent` (lines 654-664). -/
def mkRecord (rId sessionId hookEvent : String) (toolName filePath : Option String)
    (a : Agent) (now : Nat) (est : Int) : EventRecord :=
  { id := rId
    agentId := sessionId
    event := hookEvent
    tool := toolName
    file := filePath
    status := a.status
    activity := jsNonEmpty a.activity
    timestamp := now
    tokens := est }

/-- The agent-mutation pipeline of `processEvent` up to the token
update (`server.js` lines 492-578): registry lookup/creation with
hints, the status machine, the activity line, the `lastTool` /
`lastFile` / `lastActive` / `toolCalls` writes, file tracking with role
inference, and the token estimate. -/
def agentAfterEvent (st : ServerState) (evt : Event) (now : Nat) : Agent :=
  let sessionId := sessionIdOf evt
  let toolName := toolNameOf evt
  let ti := toolInputOf evt
  let filePath := filePathOf ti
  let a1 := (getOrCreateAgent st sessionId (hintsOf evt sessionId) now).agent
  let a2 := applyStatus a1 (hookEventOf evt) toolName now
  let a3 := applyActivity a2 (hookEventOf evt) toolName filePath
  let a4 := { a3 with lastTool := toolName, lastFile := filePath,
                      lastActive := now, toolCalls := a3.toolCalls + 1 }
  let a5 := trackFiles a4 filePath
  { a5 with tokens := a5.tokens + estimateTokens evt ti }

/-- `processEvent` (`server.js` lines 483-672) as a state transition.
`now` stands for every `Date.now()` call of one invocation, `mId` and
`rId` for the random message and record ids.  Returns the new state and
the broadcasts in emission order. -/
def processEvent (st : ServerState) (evt : Event) (now : Nat)
    (mId rId : String) : ServerState × List Broadcast :=
  let sessionId := sessionIdOf evt
  let hookEvent := hookEventOf evt
  let toolName := toolNameOf evt
  let ti := toolInputOf evt
  let filePath := filePathOf ti
  let r1 := getOrCreateAgent st sessionId (hintsOf evt sessionId) now
  let est := estimateTokens evt ti
  let a6 := agentAfterEvent st evt now
  let d := delegationStep hookEvent toolName ti a6 sessionId now mId r1.state.pendingTasks
  let q := sessionStartMatch hookEvent sessionId a6 d.pending r1.state.recentMessages now
  let message := sendMessageStep toolName ti sessionId now mId d.message
  let msgs2 :=
    match message with
    | some m => pushCapped MAX_MESSAGES q.msgs m
    | none => q.msgs
  let record := mkRecord rId sessionId hookEvent toolName filePath q.agent now est
  let events2 := pushCapped MAX_EVENTS r1.state.recentEvents record
  let st2 : ServerState :=
    { knownAgents := updateA r1.state.knownAgents sessionId q.agent
      recentEvents := events2
      recentMessages := msgs2
      colorIndex := r1.state.colorIndex
      pendingTasks := q.pending }
  (st2,
   r1.outs ++ q.outs ++ [Broadcast.event record q.agent] ++
     (match message with
      | some m => [Broadcast.message m]
      | none => []))

/-- A team inbox entry (`readTeamInboxes` message object). -/
structure InboxMsg where
  fromId : Option String := none
  text : String := ""
  timestamp : String := ""
  read : Bool := false
deriving Repr, DecidableEq

/-- The `inbox_update` payload fields relevant to diffing
(`server.js` lines 842-848). -/
structure InboxUpdate where
  newMessages : List InboxMsg
  totalCount : Nat
deriving Repr, DecidableEq

/-- The inbox-diff of `watchAgentTeams` (line 840):
`messages.slice(prevMessages.length)`. -/
def inboxNewMessages (prevMessages messages : List InboxMsg) : List InboxMsg :=
  messages.drop prevMessages.length

/-- The inbox branch of the teams watcher (`server.js` lines 835-848):
broadcast an incremental `inbox_update` exactly when the length-based
diff is non-empty. -/
def inboxUpdateBroadcast (prevMessages messages : List InboxMsg) : Option InboxUpdate :=
  let newMessages := inboxNewMessages prevMessages messages
  if 0 < newMessages.length then
    some ⟨newMessages, messages.length⟩
  else none

/-- `buffer.split("\n")` on a character list. -/
def splitLines : List Char → List (List Char) := splitOnChar '\n'

/-- The per-line processing of the ingestor (`server.js` lines
754-763): keep non-empty lines (`filter(Boolean)`), attempt one JSON
parse per line, silently skip lines that fail to parse (`parse` yields
`none`), and yield the parsed events in order — each is then handed to
`processEvent`. -/
def processLines (parse : List Char → Option Event)
    (lines : List (List Char)) : List Event :=
  (lines.filter (fun l => l ≠ [])).filterMap parse

/-- One `change` notification of `watchEventsFile` (`server.js` lines
733-770) over the current file content `file` and the stored offset
`eventsFileSize`: a non-growing file only resynchronizes the offset;
otherwise exactly the appended byte range is read, the offset advances
to the new size (in the code, before the parse loop runs), and the
non-empty lines are parsed.  Returns the new stored offset and the
events processed. -/
def watchEventsChange (parse : List Char → Option Event)
    (eventsFileSize : Nat) (file : List Char) : Nat × List Event :=
  let size := file.length
  if size ≤ eventsFileSize then (size, [])
  else
    let buffer := file.drop eventsFileSize
    (size, processLines parse (splitLines buffer))

/-- The head count reached by the `bestLoop` fold: the maximum match
count over the tail of the pattern list (0 on the empty list).  Used to
state the argmax characterization of `inferRoleFromFiles`. -/
def maxCount (l : List (String × Nat)) : Nat :=
  l.foldr (fun p m => max p.2 m) 0

/-- A generic agent value used to instantiate universally quantified
theorems at a concrete input. -/
def sampleAgent : Agent :=
  { id := "s1"
    shortId := "s1"
    label := "Agent s1"
    role := "worker"
    color := "#fff"
    status := "idle"
    lastActive := 0
    tokens := 10
    toolCalls := 3
    firstSeen := 0 }

/-- State with two qualifying pending tasks (both under 15 s old, both
from `s0`): the delegation at `t=1000` ("task A") is older than the one
at `t=2000` ("task B"). -/
def twoPendingState : ServerState :=
  { pendingTasks :=
      [⟨"s0", "task A", "task A", none, 1000⟩,
       ⟨"s0", "task B", "task B", none, 2000⟩]
    recentMessages :=
      [⟨"m1", "s0", "subagent", "task A", 1000⟩,
       ⟨"m2", "s0", "subagent", "task B", 2000⟩] }

/-- A `SessionStart` log event for session `s2`. -/
def sessionStartS2 : Event :=
  { session_id := some "s2", hook_event_name := some "SessionStart" }

/-- State holding `sampleAgent` (10 tokens, 3 tool calls) under key
`s1`. -/
def oneAgentState : ServerState :=
  { knownAgents := [("s1", sampleAgent)] }

/-- A log event carrying an explicit negative token count. -/
def negTokensEvent : Event :=
  { session_id := some "s1", tokens := some (-5) }

/-- State with a single qualifying pending task from `s0`. -/
def onePendingState : ServerState :=
  { pendingTasks := [⟨"s0", "fix tests", "fix tests", none, 1000⟩]
    recentMessages := [⟨"m1", "s0", "subagent", "fix tests", 1000⟩] }

/-- A toy line parser used to instantiate the ingestor theorem at a
concrete input: only the line `x` parses. -/
def sampleParse : List Char → Option Event :=
  fun l => if l = "x".data then some {} else none

/-! ### Helper lemmas about the agent map -/

theorem lookupA_append_of_none (m : List (String × Agent)) (k : String) (a : Agent)
    (h : lookupA m k = none) : lookupA (m ++ [(k, a)]) k = some a := by
  induction m with
  | nil => simp [lookupA]
  | cons p rest ih =>
    obtain ⟨k0, a0⟩ := p
    simp only [lookupA] at h
    by_cases hk : k0 = k
    · rw [if_pos hk] at h
      exact absurd h (by simp)
    · rw [if_neg hk] at h
      simpa [lookupA, hk] using ih h

theorem lookupA_updateA_self (m : List (String × Agent)) (k : String) (v : Agent)
    (h : lookupA m k ≠ none) : lookupA (updateA m k v) k = some v := by
  induction m with
  | nil => simp [lookupA] at h
  | cons p rest ih =>
    obtain ⟨k0, a0⟩ := p
    by_cases hk : k0 = k
    · simp [lookupA, updateA, hk]
    · simp only [lookupA, updateA, if_neg hk] at h ⊢
      exact ih h

theorem keysA_updateA (m : List (String × Agent)) (k : String) (v : Agent) :
    keysA (updateA m k v) = keysA m := by
  induction m with
  | nil => rfl
  | cons p rest ih =>
    obtain ⟨k0, a0⟩ := p
    by_cases hk : k0 = k
    · simp [updateA, keysA, hk]
    · simp only [updateA, if_neg hk, keysA, List.map_cons] at ih ⊢
      rw [ih]

theorem lookupA_none_of_not_mem_keys (m : List (String × Agent)) (k : String)
    (h : k ∉ keysA m) : lookupA m k = none := by
  induction m with
  | nil => rfl
  | cons p rest ih =>
    obtain ⟨k0, a0⟩ := p
    simp only [keysA, List.map_cons, List.mem_cons, not_or] at h
    have hne : k0 ≠ k := fun hh => h.1 hh.symm
    simp only [lookupA, if_neg hne]
    exact ih h.2

/-! ### Field-preservation lemmas for the `processEvent` stages -/

theorem getOrCreateAgent_state_fields (st : ServerState) (sid : String)
    (e : Hints) (n : Nat) :
    (getOrCreateAgent st sid e n).state.recentEvents = st.recentEvents ∧
    (getOrCreateAgent st sid e n).state.recentMessages = st.recentMessages ∧
    (getOrCreateAgent st sid e n).state.pendingTasks = st.pendingTasks := by
  cases h : lookupA st.knownAgents sid <;> simp [getOrCreateAgent, h]

theorem getOrCreateAgent_lookup_self (st : ServerState) (sid : String)
    (e : Hints) (n : Nat) :
    lookupA (getOrCreateAgent st sid e n).state.knownAgents sid =
      some (getOrCreateAgent st sid e n).agent := by
  cases h : lookupA st.knownAgents sid with
  | none =>
    simp only [getOrCreateAgent, h]
    exact lookupA_append_of_none _ _ _ h
  | some a =>
    simp only [getOrCreateAgent, h]
    exact lookupA_updateA_self _ _ _ (by simp [h])

theorem getOrCreateAgent_keys_none (st : ServerState) (sid : String)
    (e : Hints) (n : Nat) (h : lookupA st.knownAgents sid = none) :
    keysA (getOrCreateAgent st sid e n).state.knownAgents = keysA st.knownAgents ++ [sid] := by
  simp [getOrCreateAgent, h, keysA]

theorem getOrCreateAgent_keys_some (st : ServerState) (sid : String)
    (e : Hints) (n : Nat) (a : Agent) (h : lookupA st.knownAgents sid = some a) :
    keysA (getOrCreateAgent st sid e n).state.knownAgents = keysA st.knownAgents := by
  simp [getOrCreateAgent, h, keysA_updateA]

theorem getOrCreateAgent_agent_none (st : ServerState) (sid : String)
    (e : Hints) (n : Nat) (h : lookupA st.knownAgents sid = none) :
    (getOrCreateAgent st sid e n).agent.status = "idle" ∧
    (getOrCreateAgent st sid e n).agent.tokens = 0 ∧
    (getOrCreateAgent st sid e n).agent.toolCalls = 0 := by
  simp [getOrCreateAgent, h]

theorem getOrCreateAgent_agent_some (st : ServerState) (sid : String)
    (e : Hints) (n : Nat) (a : Agent) (h : lookupA st.knownAgents sid = some a) :
    (getOrCreateAgent st sid e n).agent.status = a.status ∧
    (getOrCreateAgent st sid e n).agent.tokens = a.tokens ∧
    (getOrCreateAgent st sid e n).agent.toolCalls = a.toolCalls := by
  simp [getOrCreateAgent, h]

theorem applyStatus_fields (a : Agent) (he : String) (tn : Option String) (now : Nat) :
    (applyStatus a he tn now).tokens = a.tokens ∧
    (applyStatus a he tn now).toolCalls = a.toolCalls ∧
    (applyStatus a he tn now).label = a.label ∧
    (applyStatus a he tn now).taskLabel = a.taskLabel ∧
    (applyStatus a he tn now).cwd = a.cwd := by
  unfold applyStatus
  repeat' split
  all_goals simp

theorem applyActivity_fields (a : Agent) (he : String) (tn fp : Option String) :
    (applyActivity a he tn fp).status = a.status ∧
    (applyActivity a he tn fp).statusSetAt = a.statusSetAt ∧
    (applyActivity a he tn fp).tokens = a.tokens ∧
    (applyActivity a he tn fp).toolCalls = a.toolCalls ∧
    (applyActivity a he tn fp).label = a.label ∧
    (applyActivity a he tn fp).taskLabel = a.taskLabel ∧
    (applyActivity a he tn fp).filePaths = a.filePaths ∧
    (applyActivity a he tn fp).cwd = a.cwd := by
  unfold applyActivity
  repeat' split
  all_goals simp

theorem trackFiles_fields (a : Agent) (fp : Option String) :
    (trackFiles a fp).status = a.status ∧
    (trackFiles a fp).statusSetAt = a.statusSetAt ∧
    (trackFiles a fp).tokens = a.tokens ∧
    (trackFiles a fp).toolCalls = a.toolCalls ∧
    (trackFiles a fp).taskLabel = a.taskLabel ∧
    (trackFiles a fp).cwd = a.cwd := by
  simp only [trackFiles]
  split
  · split
    · split
      · split
        all_goals simp
      · simp
    · simp
  · simp

theorem sessionStartMatch_agent_fields (he S : String) (a : Agent)
    (pend : List PendingTask) (msgs : List Message) (now : Nat) :
    (sessionStartMatch he S a pend msgs now).agent.status = a.status ∧
    (sessionStartMatch he S a pend msgs now).agent.statusSetAt = a.statusSetAt ∧
    (sessionStartMatch he S a pend msgs now).agent.tokens = a.tokens ∧
    (sessionStartMatch he S a pend msgs now).agent.toolCalls = a.toolCalls := by
  unfold sessionStartMatch
  repeat' split
  all_goals simp

/-! ### Ring-buffer and list helper lemmas -/

theorem pushCapped_length_le {α : Type} (cap : Nat) (xs : List α) (x : α)
    (h : xs.length ≤ cap) : (pushCapped cap xs x).length ≤ cap := by
  simp only [pushCapped]
  split
  · simp only [List.length_tail, List.length_append, List.length_singleton]
    omega
  · rename_i hle
    simp only [not_lt, List.length_append, List.length_singleton] at hle
    simpa using hle

theorem pushCapped_at_capacity {α : Type} (cap : Nat) (xs : List α) (x : α)
    (hlen : xs.length = cap) (hpos : 0 < cap) :
    pushCapped cap xs x = xs.tail ++ [x] := by
  simp only [pushCapped]
  rw [if_pos (by simp [hlen])]
  cases xs with
  | nil => simp at hlen; omega
  | cons y ys => simp

theorem foldl_pushCapped {α : Type} (cap : Nat) (l xs : List α)
    (h : xs.length ≤ cap) :
    l.foldl (pushCapped cap) xs = (xs ++ l).drop (xs.length + l.length - cap) := by
  induction l generalizing xs with
  | nil =>
    have h0 : xs.length + List.length ([] : List α) - cap = 0 := by
      simp only [List.length_nil]
      omega
    rw [h0, List.append_nil, List.drop_zero, List.foldl_nil]
  | cons a t ih =>
    rw [List.foldl_cons, ih _ (pushCapped_length_le cap xs a h)]
    by_cases hc : cap < xs.length + 1
    · have hxc : xs.length = cap := by omega
      cases xs with
      | nil =>
        have hcap : cap = 0 := by simpa using hxc.symm
        subst hcap
        have hpc : pushCapped 0 ([] : List α) a = [] := by
          simp [pushCapped]
        rw [hpc]
        simp
      | cons y ys =>
        have hpos : 0 < cap := by
          simp only [List.length_cons] at hxc
          omega
        rw [pushCapped_at_capacity cap (y :: ys) a hxc hpos]
        simp only [List.tail_cons]
        have hA : (ys ++ [a]).length + t.length - cap = t.length := by
          simp only [List.length_append, List.length_cons, List.length_nil] at hxc ⊢
          omega
        have hB : (y :: ys).length + (a :: t).length - cap = t.length + 1 := by
          simp only [List.length_cons] at hxc ⊢
          omega
        rw [hA, hB, List.cons_append, List.drop_succ_cons]
        congr 1
        simp [List.append_assoc]
    · have hpc : pushCapped cap xs a = xs ++ [a] := by
        simp only [pushCapped]
        rw [if_neg (by simpa using hc)]
      rw [hpc]
      have hA : (xs ++ [a]).length + t.length - cap
          = xs.length + (a :: t).length - cap := by
        simp only [List.length_append, List.length_cons, List.length_nil]
        omega
      rw [hA]
      congr 1
      simp [List.append_assoc]

theorem rewriteTo_length (pred : Message → Bool) (t : String) (l : List Message) :
    (rewriteTo pred t l).length = l.length := by
  induction l with
  | nil => rfl
  | cons m rest ih =>
    simp only [rewriteTo]
    split <;> simp [ih]

theorem rewriteTo_decomp (pred : Message → Bool) (t : String)
    (l1 : List Message) (m : Message) (l2 : List Message)
    (h1 : ∀ x ∈ l1, pred x = false) (h2 : pred m = true) :
    rewriteTo pred t (l1 ++ m :: l2) = l1 ++ { m with toId := t } :: l2 := by
  induction l1 with
  | nil => simp [rewriteTo, h2]
  | cons y ys ih =>
    have hy : pred y = false := h1 y (by simp)
    simp only [List.cons_append, rewriteTo, hy]
    simp only [Bool.false_eq_true, if_false, List.cons.injEq, true_and]
    exact ih (fun x hx => h1 x (by simp [hx]))

theorem eraseFirstP_decomp (pred : PendingTask → Bool)
    (l1 : List PendingTask) (p : PendingTask) (l2 : List PendingTask)
    (h1 : ∀ x ∈ l1, pred x = false) (h2 : pred p = true) :
    eraseFirstP pred (l1 ++ p :: l2) = l1 ++ l2 := by
  induction l1 with
  | nil => simp [eraseFirstP, h2]
  | cons y ys ih =>
    have hy : pred y = false := h1 y (by simp)
    simp only [List.cons_append, eraseFirstP, hy]
    simp only [Bool.false_eq_true, if_false, List.cons.injEq, true_and]
    exact ih (fun x hx => h1 x (by simp [hx]))

theorem find?_decomp {α : Type} (pred : α → Bool) (l : List α) (a : α)
    (h : l.find? pred = some a) :
    ∃ l1 l2, l = l1 ++ a :: l2 ∧ (∀ x ∈ l1, pred x = false) ∧ pred a = true := by
  induction l with
  | nil => simp [List.find?] at h
  | cons y ys ih =>
    rw [List.find?_cons] at h
    cases hy : pred y with
    | true =>
      rw [hy] at h
      simp only [cond_true, Option.some.injEq] at h
      exact ⟨[], ys, by simp [h], by simp, h ▸ hy⟩
    | false =>
      rw [hy] at h
      simp only [cond_false] at h
      obtain ⟨l1, l2, hsplit, hall, hpa⟩ := ih h
      refine ⟨y :: l1, l2, by simp [hsplit], ?_, hpa⟩
      intro x hx
      rcases List.mem_cons.mp hx with hx | hx
      · exact hx ▸ hy
      · exact hall x hx

/-! ### Canonical unfolding of `processEvent` -/

theorem processEvent_eq (st : ServerState) (evt : Event) (now : Nat) (mId rId : String) :
    processEvent st evt now mId rId =
      (let sessionId := sessionIdOf evt
       let hookEvent := hookEventOf evt
       let toolName := toolNameOf evt
       let ti := toolInputOf evt
       let r1 := getOrCreateAgent st sessionId (hintsOf evt sessionId) now
       let est := estimateTokens evt ti
       let a6 := agentAfterEvent st evt now
       let d := delegationStep hookEvent toolName ti a6 sessionId now mId st.pendingTasks
       let q := sessionStartMatch hookEvent sessionId a6 d.pending st.recentMessages now
       let message := sendMessageStep toolName ti sessionId now mId d.message
       let record := mkRecord rId sessionId hookEvent toolName (filePathOf ti) q.agent now est
       ({ knownAgents := updateA r1.state.knownAgents sessionId q.agent
          recentEvents := pushCapped MAX_EVENTS st.recentEvents record
          recentMessages :=
            match message with
            | some m => pushCapped MAX_MESSAGES q.msgs m
            | none => q.msgs
          colorIndex := r1.state.colorIndex
          pendingTasks := q.pending },
        r1.outs ++ q.outs ++ [Broadcast.event record q.agent] ++
          (match message with
           | some m => [Broadcast.message m]
           | none => []))) := by
  have h := getOrCreateAgent_state_fields st (sessionIdOf evt) (hintsOf evt (sessionIdOf evt)) now
  simp only [processEvent]
  rw [h.1, h.2.1, h.2.2]

theorem sessionStartMatch_msgs_length (he S : String) (a : Agent)
    (pend : List PendingTask) (msgs : List Message) (now : Nat) :
    (sessionStartMatch he S a pend msgs now).msgs.length = msgs.length := by
  unfold sessionStartMatch
  repeat' split
  all_goals simp [rewriteTo_length]

theorem processEvent_lookup_agent (st : ServerState) (evt : Event) (now : Nat)
    (mId rId : String) :
    lookupA (processEvent st evt now mId rId).1.knownAgents (sessionIdOf evt) =
      some (sessionStartMatch (hookEventOf evt) (sessionIdOf evt)
        (agentAfterEvent st evt now)
        (delegationStep (hookEventOf evt) (toolNameOf evt) (toolInputOf evt)
          (agentAfterEvent st evt now) (sessionIdOf evt) now mId st.pendingTasks).pending
        st.recentMessages now).agent := by
  simp only [processEvent_eq]
  exact lookupA_updateA_self _ _ _ (by rw [getOrCreateAgent_lookup_self]; simp)

theorem processEvent_keys (st : ServerState) (evt : Event) (now : Nat)
    (mId rId : String) :
    keysA (processEvent st evt now mId rId).1.knownAgents =
      keysA (getOrCreateAgent st (sessionIdOf evt)
        (hintsOf evt (sessionIdOf evt)) now).state.knownAgents := by
  simp only [processEvent_eq]
  exact keysA_updateA _ _ _

/-! ### The claims -/

/-- C4: the events ring buffer never exceeds 500 records and the
messages ring buffer never exceeds 100 across `processEvent`; the
generic ring-buffer push `pushCapped` preserves its capacity bound,
evicts the oldest element first when the buffer is at (positive)
capacity, and pushing N+1 elements into an empty capacity-N buffer
leaves exactly the last N in push order (the first-pushed element is
gone). -/
theorem claim4_ring_buffers :
    (∀ (st : ServerState) (evt : Event) (now : Nat) (mId rId : String),
      st.recentEvents.length ≤ MAX_EVENTS →
        (processEvent st evt now mId rId).1.recentEvents.length ≤ MAX_EVENTS) ∧
    (∀ (st : ServerState) (evt : Event) (now : Nat) (mId rId : String),
      st.recentMessages.length ≤ MAX_MESSAGES →
        (processEvent st evt now mId rId).1.recentMessages.length ≤ MAX_MESSAGES) ∧
    (∀ (α : Type) (cap : Nat) (xs : List α) (x : α),
      xs.length ≤ cap → (pushCapped cap xs x).length ≤ cap) ∧
    (∀ (α : Type) (cap : Nat) (xs : List α) (x : α),
      xs.length = cap → 0 < cap → pushCapped cap xs x = xs.tail ++ [x]) ∧
    (∀ (α : Type) (cap : Nat) (l : List α),
      l.length = cap + 1 → l.foldl (pushCapped cap) [] = l.tail) := by
  refine ⟨?_, ?_, ?_, ?_, ?_⟩
  · intro st evt now mId rId h
    simp only [processEvent_eq]
    exact pushCapped_length_le _ _ _ h
  · intro st evt now mId rId h
    simp only [processEvent_eq]
    have hq := sessionStartMatch_msgs_length (hookEventOf evt) (sessionIdOf evt)
      (agentAfterEvent st evt now)
      (delegationStep (hookEventOf evt) (toolNameOf evt) (toolInputOf evt)
        (agentAfterEvent st evt now) (sessionIdOf evt) now mId st.pendingTasks).pending
      st.recentMessages now
    split
    · exact pushCapped_length_le _ _ _ (by rw [hq]; exact h)
    · rw [hq]; exact h
  · intro α cap xs x h
    exact pushCapped_length_le cap xs x h
  · intro α cap xs x h hpos
    exact pushCapped_at_capacity cap xs x h hpos
  · intro α cap l hl
    rw [foldl_pushCapped cap l [] (by simp)]
    simp only [List.length_nil, List.nil_append, Nat.zero_add]
    rw [hl]
    have h1 : cap + 1 - cap = 1 := by omega
    rw [h1, List.drop_one]

/-- C4 witness: pushing 3 elements into an empty capacity-2 buffer
leaves the last two, in push order. -/
theorem claim4_witness :
    ([0, 1, 2] : List Nat).foldl (pushCapped 2) [] = [1, 2] := by
  have h := claim4_ring_buffers.2.2.2.2 Nat 2 [0, 1, 2] (by decide)
  simpa using h

/-- C7: when an inbox re-read has `k + n` entries and the prior
snapshot had `k` (same prefix), the broadcast inbox update carries
exactly the `n` appended entries (the re-read equals the prior snapshot
followed by the reported messages) with the new total count; when the
new length does not exceed the prior one, no update is broadcast. -/
theorem claim7_inbox_diff (prev cur : List InboxMsg) (k n : Nat)
    (hk : prev.length = k) (hlen : cur.length = k + n) (hpre : cur.take k = prev) :
    (0 < n → ∃ u, inboxUpdateBroadcast prev cur = some u ∧
       u.newMessages.length = n ∧ u.totalCount = k + n ∧
       cur = prev ++ u.newMessages) ∧
    (n = 0 → inboxUpdateBroadcast prev cur = none) ∧
    (∀ prev2 cur2 : List InboxMsg, cur2.length ≤ prev2.length →
       inboxUpdateBroadcast prev2 cur2 = none) := by
  refine ⟨?_, ?_, ?_⟩
  · intro hn
    have hlen2 : (inboxNewMessages prev cur).length = n := by
      simp only [inboxNewMessages, List.length_drop]
      omega
    refine ⟨⟨inboxNewMessages prev cur, cur.length⟩, ?_, hlen2, hlen, ?_⟩
    · simp only [inboxUpdateBroadcast]
      rw [if_pos (by omega)]
    · show cur = prev ++ cur.drop prev.length
      conv_lhs => rw [← List.take_append_drop prev.length cur]
      rw [hk, hpre]
  · intro hn
    simp only [inboxUpdateBroadcast]
    rw [if_neg]
    simp only [inboxNewMessages, List.length_drop]
    omega
  · intro prev2 cur2 hle
    simp only [inboxUpdateBroadcast]
    rw [if_neg]
    simp only [inboxNewMessages, List.length_drop]
    omega

/-- C7 witness: a snapshot of 1 message re-read as 3 reports exactly
the 2 appended messages. -/
theorem claim7_witness :
    ∃ u, inboxUpdateBroadcast [⟨some "lead", "hi", "", false⟩]
        [⟨some "lead", "hi", "", false⟩, ⟨some "w1", "ok", "", false⟩,
         ⟨none, "done", "", true⟩] = some u ∧
      u.newMessages.length = 2 ∧ u.totalCount = 3 ∧
      ([⟨some "lead", "hi", "", false⟩, ⟨some "w1", "ok", "", false⟩,
        ⟨none, "done", "", true⟩] : List InboxMsg) =
        [⟨some "lead", "hi", "", false⟩] ++ u.newMessages :=
  (claim7_inbox_diff [⟨some "lead", "hi", "", false⟩]
    [⟨some "lead", "hi", "", false⟩, ⟨some "w1", "ok", "", false⟩,
     ⟨none, "done", "", true⟩] 1 2 (by decide) (by decide) (by decide)).1 (by decide)

/-- C8: a change notification with new size at most the stored offset
only resynchronizes the offset and processes nothing; a growth
notification advances the offset to the new size and parses exactly the
non-empty lines of the appended byte range, one JSON parse attempt per
line; a line that fails to parse is dropped while every parseable
non-empty line still yields its event — a malformed line is never
fatal. -/
theorem claim8_ingestor (parse : List Char → Option Event)
    (eventsFileSize : Nat) (file : List Char) :
    (file.length ≤ eventsFileSize →
      watchEventsChange parse eventsFileSize file = (file.length, [])) ∧
    (eventsFileSize < file.length →
      (watchEventsChange parse eventsFileSize file).1 = file.length ∧
      (watchEventsChange parse eventsFileSize file).2 =
        processLines parse (splitLines (file.drop eventsFileSize))) ∧
    (∀ pre post bad, parse bad = none →
      processLines parse (pre ++ bad :: post) = processLines parse (pre ++ post)) ∧
    (∀ (lines : List (List Char)) (l : List Char) (e : Event),
      l ∈ lines → l ≠ [] → parse l = some e → e ∈ processLines parse lines) := by
  refine ⟨?_, ?_, ?_, ?_⟩
  · intro h
    simp [watchEventsChange, h]
  · intro h
    constructor
    · simp [watchEventsChange, Nat.not_le.mpr h]
    · simp [watchEventsChange, Nat.not_le.mpr h]
  · intro pre post bad hbad
    by_cases hb : bad = ([] : List Char)
    · subst hb
      simp [processLines, List.filter_append]
    · simp [processLines, List.filter_append, List.filterMap_append, hb, hbad]
  · intro lines l e hmem hne hp
    simp only [processLines]
    exact List.mem_filterMap.mpr ⟨l, List.mem_filter.mpr ⟨hmem, by simpa using hne⟩, hp⟩

/-- C8 witness: from offset 0 over the file `x`, `bad`, `x` (newline
separated), the offset advances to the file size and the two parseable
lines are processed while the malformed middle line is dropped. -/
theorem claim8_witness :
    (watchEventsChange sampleParse 0 ("x\nbad\nx".data)).1 = 7 ∧
    (watchEventsChange sampleParse 0 ("x\nbad\nx".data)).2 = [{}, {}] := by
  have h := (claim8_ingestor sampleParse 0 ("x\nbad\nx".data)).2.1 (by decide)
  constructor
  · rw [h.1]
    decide
  · rw [h.2]
    decide

/-- C10: an event with neither `session_id` nor `sessionId` normalizes
to the synthetic session id `"unknown"`; processing it totally (no
abort) yields a state whose map has an entry under `"unknown"`, created
on the first such event (key appended once) and merely updated — no new
key — on every later one. -/
theorem claim10_unknown_agent (st : ServerState) (evt : Event) (now : Nat)
    (mId rId : String) (h1 : evt.session_id = none) (h2 : evt.sessionId = none) :
    sessionIdOf evt = "unknown" ∧
    (lookupA (processEvent st evt now mId rId).1.knownAgents "unknown").isSome = true ∧
    (lookupA st.knownAgents "unknown" = none →
      keysA (processEvent st evt now mId rId).1.knownAgents =
        keysA st.knownAgents ++ ["unknown"]) ∧
    (∀ a, lookupA st.knownAgents "unknown" = some a →
      keysA (processEvent st evt now mId rId).1.knownAgents = keysA st.knownAgents) := by
  have hsid : sessionIdOf evt = "unknown" := by
    simp [sessionIdOf, h1, h2, jsOr]
  refine ⟨hsid, ?_, ?_, ?_⟩
  · have hl := processEvent_lookup_agent st evt now mId rId
    rw [hsid] at hl
    rw [hl]
    rfl
  · intro hnone
    have hk := processEvent_keys st evt now mId rId
    rw [hsid] at hk
    rw [hk, getOrCreateAgent_keys_none st "unknown" _ now hnone]
  · intro a hsome
    have hk := processEvent_keys st evt now mId rId
    rw [hsid] at hk
    rw [hk, getOrCreateAgent_keys_some st "unknown" _ now a hsome]

/-- C10 witness: two successive anonymous events — the first creates
the single `"unknown"` agent, the second does not add a key. -/
theorem claim10_witness :
    keysA (processEvent {} {} 0 "m1" "r1").1.knownAgents = ["unknown"] ∧
    keysA (processEvent (processEvent {} {} 0 "m1" "r1").1 {} 1 "m2" "r2").1.knownAgents
      = ["unknown"] := by
  have h1 := (claim10_unknown_agent {} {} 0 "m1" "r1" rfl rfl).2.2.1 (by rfl)
  have hlk : (lookupA (processEvent {} {} 0 "m1" "r1").1.knownAgents "unknown").isSome = true :=
    (claim10_unknown_agent {} {} 0 "m1" "r1" rfl rfl).2.1
  obtain ⟨a, ha⟩ := Option.isSome_iff_exists.mp hlk
  have h2 := (claim10_unknown_agent (processEvent {} {} 0 "m1" "r1").1 {} 1 "m2" "r2"
    rfl rfl).2.2.2 a ha
  constructor
  · simpa using h1
  · rw [h2]
    simpa using h1

/-- C1: the per-event status state machine.  A pre-tool event sets the
status to the active status determined solely by the tool name
(Read/Grep/Glob/ListDir give `reading`, Write/Edit give `writing`,
Task/SendMessage give `delegating`, anything else gives `tool_call`)
and stamps `statusSetAt := now`; a post-tool event sets `thinking`
exactly when at least `STATUS_HOLD_MS` (3000 ms) elapsed since
`statusSetAt` (0 when never stamped, as in the code's `|| 0`) and
otherwise changes nothing; stop, subagent-stop and task-done events set
`done`; session-start sets `starting`; any unrecognized kind leaves the
agent unchanged (a fresh agent starts `idle`), and the agent stored by
`processEvent` carries exactly the status this machine computes. -/
theorem claim1_status_machine (a : Agent) (hookEvent : String)
    (toolName : Option String) (now : Nat) :
    ((hookEvent = "pre_tool" ∨ hookEvent = "PreToolUse") →
      applyStatus a hookEvent toolName now =
        { a with status := toolStatusOf toolName, statusSetAt := some now } ∧
      ((toolName = some "Read" ∨ toolName = some "Grep" ∨ toolName = some "Glob" ∨
          toolName = some "ListDir") → toolStatusOf toolName = "reading") ∧
      ((toolName = some "Write" ∨ toolName = some "Edit") →
        toolStatusOf toolName = "writing") ∧
      ((toolName = some "Task" ∨ toolName = some "SendMessage") →
        toolStatusOf toolName = "delegating") ∧
      (¬(toolName = some "Read" ∨ toolName = some "Grep" ∨ toolName = some "Glob" ∨
          toolName = some "ListDir" ∨ toolName = some "Write" ∨ toolName = some "Edit" ∨
          toolName = some "Task" ∨ toolName = some "SendMessage") →
        toolStatusOf toolName = "tool_call")) ∧
    ((hookEvent = "post_tool" ∨ hookEvent = "PostToolUse") →
      (STATUS_HOLD_MS ≤ now - a.statusSetAt.getD 0 →
        applyStatus a hookEvent toolName now = { a with status := "thinking" }) ∧
      (now - a.statusSetAt.getD 0 < STATUS_HOLD_MS →
        applyStatus a hookEvent toolName now = a)) ∧
    ((hookEvent = "stop" ∨ hookEvent = "Stop" ∨ hookEvent = "subagent_stop" ∨
        hookEvent = "SubagentStop" ∨ hookEvent = "task_done" ∨
        hookEvent = "TaskCompleted") →
      applyStatus a hookEvent toolName now = { a with status := "done" }) ∧
    ((hookEvent = "session_start" ∨ hookEvent = "SessionStart") →
      applyStatus a hookEvent toolName now = { a with status := "starting" }) ∧
    (hookEvent ∉ ["pre_tool", "PreToolUse", "post_tool", "PostToolUse", "stop", "Stop",
        "session_start", "SessionStart", "subagent_stop", "SubagentStop",
        "task_done", "TaskCompleted"] →
      applyStatus a hookEvent toolName now = a) ∧
    (∀ (st : ServerState) (sid : String) (extra : Hints) (t : Nat),
      lookupA st.knownAgents sid = none →
      (getOrCreateAgent st sid extra t).agent.status = "idle") ∧
    (∀ (st : ServerState) (evt : Event) (t : Nat) (mId rId : String),
      (lookupA (processEvent st evt t mId rId).1.knownAgents (sessionIdOf evt)).map
          Agent.status =
        some ((applyStatus (getOrCreateAgent st (sessionIdOf evt)
          (hintsOf evt (sessionIdOf evt)) t).agent (hookEventOf evt)
          (toolNameOf evt) t).status)) := by
  refine ⟨?_, ?_, ?_, ?_, ?_, ?_, ?_⟩
  · intro h
    refine ⟨?_, ?_, ?_, ?_, ?_⟩
    · rcases h with h | h <;> subst h <;> simp [applyStatus]
    · intro ht
      rcases ht with ht | ht | ht | ht <;> subst ht <;> simp [toolStatusOf]
    · intro ht
      rcases ht with ht | ht <;> subst ht <;> simp [toolStatusOf]
    · intro ht
      rcases ht with ht | ht <;> subst ht <;> simp [toolStatusOf]
    · intro ht
      push_neg at ht
      obtain ⟨t1, t2, t3, t4, t5, t6, t7, t8⟩ := ht
      simp [toolStatusOf, t1, t2, t3, t4, t5, t6, t7, t8]
  · intro h
    constructor
    · intro hh
      rcases h with h | h <;> subst h <;> simp [applyStatus, hh]
    · intro hh
      rcases h with h | h <;> subst h <;>
        simp [applyStatus, Nat.not_le.mpr hh]
  · intro h
    rcases h with h | h | h | h | h | h <;> subst h <;> simp [applyStatus]
  · intro h
    rcases h with h | h <;> subst h <;> simp [applyStatus]
  · intro h
    simp only [List.mem_cons, List.not_mem_nil, or_false, not_or] at h
    obtain ⟨n1, n2, n3, n4, n5, n6, n7, n8, n9, n10, n11, n12⟩ := h
    simp [applyStatus, n1, n2, n3, n4, n5, n6, n7, n8, n9, n10, n11, n12]
  · intro st sid extra t hnone
    exact (getOrCreateAgent_agent_none st sid extra t hnone).1
  · intro st evt t mId rId
    rw [processEvent_lookup_agent]
    simp only [Option.map_some']
    congr 1
    rw [(sessionStartMatch_agent_fields _ _ _ _ _ _).1]
    simp only [agentAfterEvent]
    rw [(trackFiles_fields _ _).1]
    rw [(applyActivity_fields _ _ _ _).1]

/-- C1 witness: a `PreToolUse` event with tool `Read` sets status
`reading` and stamps `statusSetAt` with the current time. -/
theorem claim1_witness :
    applyStatus sampleAgent "PreToolUse" (some "Read") 5 =
      { sampleAgent with status := "reading", statusSetAt := some 5 } := by
  have h := (claim1_status_machine sampleAgent "PreToolUse" (some "Read") 5).1 (Or.inr rfl)
  rw [h.1, h.2.1 (Or.inl rfl)]

/-- C5 counterexample: `getOrCreateAgent` overwrites any stored label
that merely starts with `"Agent "`, not only the exact placeholder: the
hinted creation label `"Agent Smith"` differs from the placeholder
`"Agent sess-1"`, yet a later hint still overwrites it, so "only if the
current label is still the placeholder" is false. -/
theorem claim5_counterexample :
    (getOrCreateAgent (getOrCreateAgent {} "sess-1" { label := some "Agent Smith" } 0).state
        "sess-1" { label := some "Boss" } 1).agent.label = "Boss" ∧
    (getOrCreateAgent {} "sess-1" { label := some "Agent Smith" } 0).agent.label
      = "Agent Smith" ∧
    "Agent Smith" ≠ "Agent " ++ "sess-1".take 8 := by
  refine ⟨?_, ?_, ?_⟩ <;> decide

/-- C5 (amended): `getOrCreateAgent` creates an unseen id with label
from the hints or the placeholder `"Agent " ++ id.take 8`, role from the
hints or `"worker"`, the next cyclic palette color (the palette has 20
entries and indices repeat modulo its length), status `"idle"`, and
emits exactly one `agent_join`; for a known id it emits nothing,
overwrites the label only if a truthy label hint is given and the
current label starts with `"Agent "` (the placeholder prefix — not
necessarily the exact placeholder), overwrites the role only if the
current role is still `"worker"`, and stores/returns that record. -/
theorem claim5_registry (st : ServerState) (sessionId : String)
    (extra : Hints) (now : Nat) :
    (lookupA st.knownAgents sessionId = none →
      (getOrCreateAgent st sessionId extra now).agent.label =
        jsOr extra.label ("Agent " ++ sessionId.take 8) ∧
      (getOrCreateAgent st sessionId extra now).agent.role = jsOr extra.role "worker" ∧
      (getOrCreateAgent st sessionId extra now).agent.color =
        PALETTE.getD (st.colorIndex % PALETTE.length) "" ∧
      (getOrCreateAgent st sessionId extra now).agent.status = "idle" ∧
      (getOrCreateAgent st sessionId extra now).state.colorIndex = st.colorIndex + 1 ∧
      (getOrCreateAgent st sessionId extra now).outs =
        [Broadcast.agent_join (getOrCreateAgent st sessionId extra now).agent] ∧
      (getOrCreateAgent st sessionId extra now).state.knownAgents =
        st.knownAgents ++ [(sessionId, (getOrCreateAgent st sessionId extra now).agent)]) ∧
    (∀ b, lookupA st.knownAgents sessionId = some b →
      (getOrCreateAgent st sessionId extra now).outs = [] ∧
      (getOrCreateAgent st sessionId extra now).state.colorIndex = st.colorIndex ∧
      (getOrCreateAgent st sessionId extra now).agent =
        { b with
            label := if jsTruthy extra.label ∧ startsWithAgent b.label
                     then extra.label.getD "" else b.label
            role := if jsTruthy extra.role ∧ b.role = "worker"
                    then extra.role.getD "" else b.role } ∧
      (getOrCreateAgent st sessionId extra now).state.knownAgents =
        updateA st.knownAgents sessionId (getOrCreateAgent st sessionId extra now).agent) ∧
    (PALETTE.length = 20 ∧
      ∀ i : Nat, PALETTE.getD ((i + PALETTE.length) % PALETTE.length) "" =
        PALETTE.getD (i % PALETTE.length) "") := by
  refine ⟨?_, ?_, ?_, ?_⟩
  · intro h
    refine ⟨?_, ?_, ?_, ?_, ?_, ?_, ?_⟩ <;> simp [getOrCreateAgent, h]
  · intro b h
    refine ⟨?_, ?_, ?_, ?_⟩ <;> simp [getOrCreateAgent, h]
  · decide
  · intro i
    rw [Nat.add_mod_right]

/-- C5 witness: an unseen 10-character id gets the placeholder built
from its first 8 characters, the default role, status `idle`, and a
single creation broadcast. -/
theorem claim5_witness :
    (getOrCreateAgent {} "abcdefghij" {} 7).agent.label = "Agent abcdefgh" ∧
    (getOrCreateAgent {} "abcdefghij" {} 7).agent.role = "worker" ∧
    (getOrCreateAgent {} "abcdefghij" {} 7).agent.status = "idle" ∧
    (getOrCreateAgent {} "abcdefghij" {} 7).outs =
      [Broadcast.agent_join (getOrCreateAgent {} "abcdefghij" {} 7).agent] := by
  have h := (claim5_registry {} "abcdefghij" {} 7).1 (by rfl)
  refine ⟨?_, ?_, ?_, ?_⟩
  · rw [h.1]
    decide
  · rw [h.2.1]
    decide
  · exact h.2.2.2.1
  · exact h.2.2.2.2.2.1

theorem agentAfterEvent_counters (st : ServerState) (evt : Event) (now : Nat) :
    (agentAfterEvent st evt now).toolCalls =
      (getOrCreateAgent st (sessionIdOf evt)
        (hintsOf evt (sessionIdOf evt)) now).agent.toolCalls + 1 ∧
    (agentAfterEvent st evt now).tokens =
      (getOrCreateAgent st (sessionIdOf evt)
        (hintsOf evt (sessionIdOf evt)) now).agent.tokens
        + estimateTokens evt (toolInputOf evt) := by
  constructor
  · simp only [agentAfterEvent]
    rw [(trackFiles_fields _ _).2.2.2.1]
    simp only []
    rw [(applyActivity_fields _ _ _ _).2.2.2.1, (applyStatus_fields _ _ _ _).2.1]
  · simp only [agentAfterEvent]
    rw [(trackFiles_fields _ _).2.2.1]
    simp only []
    rw [(applyActivity_fields _ _ _ _).2.2.1, (applyStatus_fields _ _ _ _).1]

/-- C9 counterexample: the log line may carry any explicit `tokens`
number; with `tokens = -5` the stored agent's token counter drops from
10 to 5, so "tokens never decreases" is false as stated. -/
theorem claim9_counterexample :
    (lookupA (processEvent oneAgentState negTokensEvent 100 "m" "r").1.knownAgents
        "s1").map Agent.tokens = some 5 ∧
    ((5 : Int) < 10) ∧
    (lookupA oneAgentState.knownAgents "s1").map Agent.tokens = some 10 ∧
    negTokensEvent.tokens = some (-5) := by
  refine ⟨?_, ?_, ?_, ?_⟩ <;> decide

/-- C9 (amended): on every processed event the agent's `toolCalls`
increments by exactly one, and `tokens` changes by the token estimate —
a non-negative length-based value, except that a truthy explicit
`evt.tokens` replaces it verbatim.  Hence `tokens` never decreases
provided every explicit token count in the log is non-negative (a
negative explicit count does decrease it). -/
theorem claim9_counters (st : ServerState) (evt : Event) (now : Nat) (mId rId : String) :
    (∀ b, lookupA st.knownAgents (sessionIdOf evt) = some b →
      ∃ c, lookupA (processEvent st evt now mId rId).1.knownAgents (sessionIdOf evt)
          = some c ∧
        c.toolCalls = b.toolCalls + 1 ∧
        c.tokens = b.tokens + estimateTokens evt (toolInputOf evt) ∧
        ((∀ t, evt.tokens = some t → 0 ≤ t) → b.tokens ≤ c.tokens)) ∧
    (lookupA st.knownAgents (sessionIdOf evt) = none →
      ∃ c, lookupA (processEvent st evt now mId rId).1.knownAgents (sessionIdOf evt)
          = some c ∧
        c.toolCalls = 1 ∧
        c.tokens = estimateTokens evt (toolInputOf evt)) ∧
    ((∀ t, evt.tokens = some t → 0 ≤ t) →
      0 ≤ estimateTokens evt (toolInputOf evt)) := by
  have hest : (∀ t, evt.tokens = some t → 0 ≤ t) →
      0 ≤ estimateTokens evt (toolInputOf evt) := by
    intro hok
    simp only [estimateTokens]
    cases htok : evt.tokens with
    | none =>
      simp only [htok]
      exact Int.natCast_nonneg _
    | some t =>
      simp only [htok]
      split
      · exact hok t htok
      · exact Int.natCast_nonneg _
  have hmatch := sessionStartMatch_agent_fields (hookEventOf evt) (sessionIdOf evt)
    (agentAfterEvent st evt now)
    (delegationStep (hookEventOf evt) (toolNameOf evt) (toolInputOf evt)
      (agentAfterEvent st evt now) (sessionIdOf evt) now mId st.pendingTasks).pending
    st.recentMessages now
  have hcnt := agentAfterEvent_counters st evt now
  refine ⟨?_, ?_, hest⟩
  · intro b hb
    refine ⟨_, processEvent_lookup_agent st evt now mId rId, ?_, ?_, ?_⟩
    · rw [hmatch.2.2.2, hcnt.1,
        (getOrCreateAgent_agent_some st (sessionIdOf evt) _ now b hb).2.2]
    · rw [hmatch.2.2.1, hcnt.2,
        (getOrCreateAgent_agent_some st (sessionIdOf evt) _ now b hb).2.1]
    · intro hok
      rw [hmatch.2.2.1, hcnt.2,
        (getOrCreateAgent_agent_some st (sessionIdOf evt) _ now b hb).2.1]
      have := hest hok
      omega
  · intro hb
    refine ⟨_, processEvent_lookup_agent st evt now mId rId, ?_, ?_⟩
    · rw [hmatch.2.2.2, hcnt.1,
        (getOrCreateAgent_agent_none st (sessionIdOf evt) _ now hb).2.2]
    · rw [hmatch.2.2.1, hcnt.2,
        (getOrCreateAgent_agent_none st (sessionIdOf evt) _ now hb).2.1]
      simp

/-- C9 witness: processing an ordinary event for the stored agent (3
tool calls, 10 tokens, no explicit count) increments `toolCalls` to 4
and does not decrease `tokens`. -/
theorem claim9_witness :
    ∃ c, lookupA (processEvent oneAgentState { session_id := some "s1" } 9 "m" "r").1.knownAgents
        "s1" = some c ∧
      c.toolCalls = 4 ∧ (10 : Int) ≤ c.tokens := by
  have h := (claim9_counters oneAgentState { session_id := some "s1" } 9 "m" "r").1
    sampleAgent (by decide)
  obtain ⟨c, hc, h1, h2, h3⟩ := h
  refine ⟨c, by simpa [sessionIdOf, jsOr] using hc, by simpa [sampleAgent] using h1, ?_⟩
  have := h3 (by intro t ht; cases ht)
  simpa [sampleAgent] using this

/-- C2 counterexample: with two pending tasks both eligible at
`now = 3000` (ages 2000 ms and 1000 ms, both from `s0 ≠ s2`), a
session-start for `s2` labels the agent with the OLDEST entry
`"task A"` — `Array.prototype.find` scans from the front — and removes
it, leaving the most recent `"task B"` queued, contradicting the
claim's "selects the most recent entry". -/
theorem claim2_counterexample :
    (lookupA (processEvent twoPendingState sessionStartS2 3000 "mX" "rX").1.knownAgents
        "s2").map Agent.label = some "task A" ∧
    (processEvent twoPendingState sessionStartS2 3000 "mX" "rX").1.pendingTasks =
      [⟨"s0", "task B", "task B", none, 2000⟩] ∧
    (3000 - 1000 < 15000 ∧ "s0" ≠ "s2") ∧
    (3000 - 2000 < 15000 ∧ "s0" ≠ "s2") ∧
    "task A" ≠ "task B" := by
  refine ⟨?_, ?_, ?_, ?_, ?_⟩ <;> decide

/-- C2 (amended): on a session-start event (carrying no tool fields)
for session S, the task matcher selects the OLDEST (first-queued)
pending entry whose age is under 15 s and whose originator differs from
S.  When one exists (all earlier queue entries fail the test): the new
agent's label becomes that entry's label and is marked task-derived,
exactly that entry is removed from the queue, the first previously
emitted message from the entry's originator to the placeholder
recipient `"subagent"` carrying that label is retargeted to S, and an
`agent_join` with the new label is re-broadcast.  When no entry
qualifies, the queue and message buffer are unchanged. -/
theorem claim2_oldest_match (st : ServerState) (evt : Event) (now : Nat)
    (mId rId : String)
    (hstart : hookEventOf evt = "session_start" ∨ hookEventOf evt = "SessionStart")
    (htn : toolNameOf evt = none) :
    (∀ p, st.pendingTasks.find? (qualB now (sessionIdOf evt)) = some p →
      (∃ l1 l2, st.pendingTasks = l1 ++ p :: l2 ∧
         (∀ x ∈ l1, qualB now (sessionIdOf evt) x = false) ∧
         qualB now (sessionIdOf evt) p = true ∧
         (processEvent st evt now mId rId).1.pendingTasks = l1 ++ l2) ∧
      (lookupA (processEvent st evt now mId rId).1.knownAgents (sessionIdOf evt)).map
          Agent.label = some p.label ∧
      (lookupA (processEvent st evt now mId rId).1.knownAgents (sessionIdOf evt)).map
          Agent.taskLabel = some (some p.label) ∧
      (processEvent st evt now mId rId).1.recentMessages =
        rewriteTo (msgPredB p) (sessionIdOf evt) st.recentMessages ∧
      (∀ m1s m m2s, st.recentMessages = m1s ++ m :: m2s →
        (∀ x ∈ m1s, msgPredB p x = false) → msgPredB p m = true →
        (processEvent st evt now mId rId).1.recentMessages =
          m1s ++ { m with toId := sessionIdOf evt } :: m2s) ∧
      (∃ c, Broadcast.agent_join c ∈ (processEvent st evt now mId rId).2 ∧
        c.label = p.label ∧ c.taskLabel = some p.label)) ∧
    (st.pendingTasks.find? (qualB now (sessionIdOf evt)) = none →
      (processEvent st evt now mId rId).1.pendingTasks = st.pendingTasks ∧
      (processEvent st evt now mId rId).1.recentMessages = st.recentMessages) := by
  have hd : delegationStep (hookEventOf evt) (toolNameOf evt) (toolInputOf evt)
      (agentAfterEvent st evt now) (sessionIdOf evt) now mId st.pendingTasks
      = ⟨st.pendingTasks, none⟩ := by
    simp [delegationStep, htn]
  have hsend : sendMessageStep (toolNameOf evt) (toolInputOf evt) (sessionIdOf evt)
      now mId none = none := by
    simp [sendMessageStep, htn]
  constructor
  · intro p hfind
    have hne : st.pendingTasks ≠ [] := by
      intro h0
      rw [h0] at hfind
      simp [List.find?] at hfind
    have hq : sessionStartMatch (hookEventOf evt) (sessionIdOf evt)
        (agentAfterEvent st evt now) st.pendingTasks st.recentMessages now =
        ⟨{ agentAfterEvent st evt now with taskLabel := some p.label, label := p.label },
         eraseFirstP (qualB now (sessionIdOf evt)) st.pendingTasks,
         rewriteTo (msgPredB p) (sessionIdOf evt) st.recentMessages,
         [Broadcast.agent_join { agentAfterEvent st evt now with
            taskLabel := some p.label, label := p.label }]⟩ := by
      unfold sessionStartMatch
      rw [if_pos ⟨hstart, hne⟩, hfind]
    obtain ⟨l1, l2, hsplit, hall, hp⟩ := find?_decomp _ _ _ hfind
    refine ⟨⟨l1, l2, hsplit, hall, hp, ?_⟩, ?_, ?_, ?_, ?_, ?_⟩
    · simp only [processEvent_eq, hd, hq]
      rw [hsplit]
      exact eraseFirstP_decomp _ _ _ _ hall hp
    · rw [processEvent_lookup_agent]
      simp only [hd, hq]
      simp
    · rw [processEvent_lookup_agent]
      simp only [hd, hq]
      simp
    · simp only [processEvent_eq, hd, hq, hsend]
    · intro m1s m m2s hmsg hall2 hm
      simp only [processEvent_eq, hd, hq, hsend]
      rw [hmsg]
      exact rewriteTo_decomp _ _ _ _ _ hall2 hm
    · refine ⟨{ agentAfterEvent st evt now with
        taskLabel := some p.label, label := p.label }, ?_, rfl, rfl⟩
      simp only [processEvent_eq, hd, hq, hsend]
      simp
  · intro hfind
    by_cases hne : st.pendingTasks = []
    · have hq : sessionStartMatch (hookEventOf evt) (sessionIdOf evt)
          (agentAfterEvent st evt now) st.pendingTasks st.recentMessages now =
          ⟨agentAfterEvent st evt now, st.pendingTasks, st.recentMessages, []⟩ := by
        unfold sessionStartMatch
        rw [if_neg (by simp [hne])]
      constructor
      · simp only [processEvent_eq, hd, hq]
      · simp only [processEvent_eq, hd, hq, hsend]
    · have hq : sessionStartMatch (hookEventOf evt) (sessionIdOf evt)
          (agentAfterEvent st evt now) st.pendingTasks st.recentMessages now =
          ⟨agentAfterEvent st evt now, st.pendingTasks, st.recentMessages, []⟩ := by
        unfold sessionStartMatch
        rw [if_pos ⟨hstart, hne⟩, hfind]
      constructor
      · simp only [processEvent_eq, hd, hq]
      · simp only [processEvent_eq, hd, hq, hsend]

/-- C2 witness: a single qualifying pending task from `s0` ("fix
tests", 1 s old) is matched by the session-start of `s2`: the agent is
labelled "fix tests" and the placeholder message is retargeted to
`s2`. -/
theorem claim2_witness :
    (lookupA (processEvent onePendingState sessionStartS2 2000 "m" "r").1.knownAgents
        "s2").map Agent.label = some "fix tests" ∧
    (processEvent onePendingState sessionStartS2 2000 "m" "r").1.recentMessages =
      [⟨"m1", "s0", "s2", "fix tests", 1000⟩] := by
  have h := (claim2_oldest_match onePendingState sessionStartS2 2000 "m" "r"
    (Or.inr rfl) rfl).1 ⟨"s0", "fix tests", "fix tests", none, 1000⟩ (by decide)
  constructor
  · exact h.2.1
  · rw [h.2.2.2.1]
    decide

theorem lastIndexOfSpace_none (l : List Char) (h : lastIndexOfSpace l = none) :
    ∀ j, j < l.length → l.getD j 'x' ≠ ' ' := by
  induction l with
  | nil =>
    intro j hj
    simp at hj
  | cons c rest ih =>
    intro j hj
    simp only [lastIndexOfSpace] at h
    cases hr : lastIndexOfSpace rest with
    | some i =>
      rw [hr] at h
      cases h
    | none =>
      rw [hr] at h
      have hc : c ≠ ' ' := by
        intro hcc
        rw [if_pos hcc] at h
        cases h
      cases j with
      | zero => simpa using hc
      | succ j2 =>
        simp only [List.getD_cons_succ]
        exact ih hr j2 (by simpa using hj)

theorem lastIndexOfSpace_some (l : List Char) (i : Nat)
    (h : lastIndexOfSpace l = some i) :
    i < l.length ∧ l.getD i 'x' = ' ' ∧
    ∀ j, i < j → j < l.length → l.getD j 'x' ≠ ' ' := by
  induction l generalizing i with
  | nil => simp [lastIndexOfSpace] at h
  | cons c rest ih =>
    simp only [lastIndexOfSpace] at h
    cases hr : lastIndexOfSpace rest with
    | some i2 =>
      rw [hr] at h
      have hi : i = i2 + 1 := by
        have := Option.some.inj h
        omega
      subst hi
      obtain ⟨h1, h2, h3⟩ := ih i2 hr
      refine ⟨by simpa using h1, by simpa using h2, ?_⟩
      intro j hj1 hj2
      cases j with
      | zero => omega
      | succ j2 =>
        simp only [List.getD_cons_succ]
        exact h3 j2 (by omega) (by simpa using hj2)
    | none =>
      rw [hr] at h
      by_cases hc : c = ' '
      · rw [if_pos hc] at h
        have hi : i = 0 := (Option.some.inj h).symm
        subst hi
        refine ⟨by simp, by simpa using hc, ?_⟩
        intro j hj1 hj2
        cases j with
        | zero => omega
        | succ j2 =>
          simp only [List.getD_cons_succ]
          exact lastIndexOfSpace_none rest hr j2 (by simpa using hj2)
      · rw [if_neg hc] at h
        cases h

set_option maxRecDepth 4096 in
/-- C3 counterexample: a 45-character single word has a first clause
longer than 32 characters and no word boundary at all, yet
`summarizeTask` returns its raw 40-character prefix plus the ellipsis —
the word is split, so "truncated at the last word boundary ... never
splits a word" is false. -/
theorem claim3_counterexample :
    summarizeTask (String.mk (List.replicate 45 'a')) =
      String.mk (List.replicate 40 'a') ++ "…" ∧
    firstClause (String.mk (List.replicate 45 'a')) =
      String.mk (List.replicate 45 'a') ∧
    (' ' ∈ List.replicate 45 'a' → False) ∧
    32 < (String.mk (List.replicate 45 'a')).length := by
  refine ⟨?_, ?_, ?_, ?_⟩ <;> decide

/-- C3 (amended): `summarizeTask` returns the whitespace-normalized
first clause verbatim when it is at most 32 characters long.  For a
longer first clause: when the last space of the clause's first 40
characters sits at an index greater than 15, the clause is cut exactly
there — a word boundary, with no later space in the 40-character window
— and an ellipsis is appended; when that last space sits at index 15 or
earlier, or the window contains no space at all, the raw 40-character
prefix plus ellipsis is returned, which can split a word. -/
theorem claim3_truncation (text : String) :
    ((firstClause text).length ≤ 32 → summarizeTask text = firstClause text) ∧
    (32 < (firstClause text).length →
      (∀ i, lastIndexOfSpace ((firstClause text).data.take 40) = some i →
        (15 < i →
          summarizeTask text =
            String.mk (((firstClause text).data.take 40).take i) ++ "…" ∧
          ((firstClause text).data.take 40).getD i 'x' = ' ' ∧
          (∀ j, i < j → j < ((firstClause text).data.take 40).length →
            ((firstClause text).data.take 40).getD j 'x' ≠ ' ')) ∧
        (i ≤ 15 → summarizeTask text = (firstClause text).take 40 ++ "…")) ∧
      (lastIndexOfSpace ((firstClause text).data.take 40) = none →
        summarizeTask text = (firstClause text).take 40 ++ "…" ∧
        ∀ j, j < ((firstClause text).data.take 40).length →
          ((firstClause text).data.take 40).getD j 'x' ≠ ' ')) := by
  constructor
  · intro h
    simp [summarizeTask, h]
  · intro h
    have hno : ¬ (firstClause text).length ≤ 32 := by omega
    constructor
    · intro i hi
      constructor
      · intro h15
        obtain ⟨s1, s2, s3⟩ := lastIndexOfSpace_some _ _ hi
        refine ⟨?_, s2, s3⟩
        simp [summarizeTask, hno, hi, h15]
      · intro h15
        simp [summarizeTask, hno, hi, Nat.not_lt.mpr h15]
    · intro hi
      refine ⟨?_, lastIndexOfSpace_none _ hi⟩
      simp [summarizeTask, hno, hi]

set_option maxRecDepth 8192 in
/-- C3 witness: a short description is returned verbatim; a 44-character
clause is cut at its last word boundary before 40 characters with an
ellipsis. -/
theorem claim3_witness :
    summarizeTask "Fix the login bug" = "Fix the login bug" ∧
    summarizeTask "Refactor the API layer to use async handlers" =
      "Refactor the API layer to use async…" := by
  constructor
  · have h := (claim3_truncation "Fix the login bug").1 (by decide)
    rw [h]
    decide
  · have h := (((claim3_truncation
      "Refactor the API layer to use async handlers").2 (by decide)).1 35
      (by decide)).1 (by decide)
    rw [h.1]
    decide

theorem le_maxCount (l : List (String × Nat)) (y : String × Nat) (hy : y ∈ l) :
    y.2 ≤ maxCount l := by
  induction l with
  | nil => cases hy
  | cons p t ih =>
    rcases List.mem_cons.mp hy with h | h
    · subst h
      simp [maxCount]
    · simp only [maxCount, List.foldr_cons]
      exact le_trans (ih h) (Nat.le_max_right _ _)

theorem maxCount_lt (l : List (String × Nat)) (c : Nat) (hc : 0 < c)
    (h : ∀ y ∈ l, y.2 < c) : maxCount l < c := by
  induction l with
  | nil => simpa [maxCount] using hc
  | cons p t ih =>
    simp only [maxCount, List.foldr_cons]
    have h1 := h p (by simp)
    have h2 := ih (fun y hy => h y (by simp [hy]))
    simp only [maxCount] at h2
    omega

theorem bestLoop_snd (l : List (String × Nat)) (b0 : Option String) (c0 : Nat) :
    (bestLoop l b0 c0).2 = max c0 (maxCount l) := by
  induction l generalizing b0 c0 with
  | nil => simp [bestLoop, maxCount]
  | cons p t ih =>
    simp only [bestLoop, maxCount, List.foldr_cons]
    split
    · rename_i hlt
      rw [ih]
      simp only [maxCount]
      omega
    · rename_i hge
      rw [ih]
      simp only [maxCount, not_lt] at hge ⊢
      omega

theorem bestLoop_stable (l : List (String × Nat)) (b0 : Option String) (c0 : Nat)
    (h : maxCount l ≤ c0) : bestLoop l b0 c0 = (b0, c0) := by
  induction l generalizing b0 c0 with
  | nil => rfl
  | cons p t ih =>
    simp only [maxCount, List.foldr_cons] at h
    simp only [bestLoop]
    rw [if_neg (by omega)]
    exact ih b0 c0 (by simp only [maxCount]; omega)

theorem bestLoop_argmax (l : List (String × Nat)) (b0 : Option String) (c0 : Nat)
    (h : c0 < maxCount l) :
    ∃ l1 x l2, l = l1 ++ x :: l2 ∧ x.2 = maxCount l ∧
      (∀ y ∈ l1, y.2 < maxCount l) ∧ (bestLoop l b0 c0).1 = some x.1 := by
  induction l generalizing b0 c0 with
  | nil => simp [maxCount] at h
  | cons p t ih =>
    have hM : maxCount (p :: t) = max p.2 (maxCount t) := by
      simp [maxCount]
    by_cases hpt : maxCount t ≤ p.2
    · have hMp : maxCount (p :: t) = p.2 := by omega
      have hc0p : c0 < p.2 := by omega
      refine ⟨[], p, t, by simp, hMp.symm, by simp, ?_⟩
      simp only [bestLoop]
      rw [if_pos hc0p, bestLoop_stable t (some p.1) p.2 hpt]
    · push_neg at hpt
      have hMt : maxCount (p :: t) = maxCount t := by omega
      by_cases hc0p : c0 < p.2
      · obtain ⟨l1, x, l2, hsp, hx2, hlt, hfst⟩ := ih (some p.1) p.2 hpt
        refine ⟨p :: l1, x, l2, by simp [hsp], by rw [hMt]; exact hx2, ?_, ?_⟩
        · intro y hy
          rcases List.mem_cons.mp hy with h | h
          · subst h; omega
          · rw [hMt]; exact hlt y h
        · simp only [bestLoop]
          rw [if_pos hc0p]
          exact hfst
      · have hc0t : c0 < maxCount t := by omega
        obtain ⟨l1, x, l2, hsp, hx2, hlt, hfst⟩ := ih b0 c0 hc0t
        refine ⟨p :: l1, x, l2, by simp [hsp], by rw [hMt]; exact hx2, ?_, ?_⟩
        · intro y hy
          rcases List.mem_cons.mp hy with h | h
          · subst h; omega
          · rw [hMt]; exact hlt y h
        · simp only [bestLoop]
          rw [if_neg hc0p]
          exact hfst

theorem trackFiles_label (a : Agent) (fp : Option String) :
    (trackFiles a fp).label = a.label ∨
    (a.taskLabel = none ∧ startsWithAgent a.label = true ∧
      inferRoleFromFiles (trackFiles a fp).filePaths = some (trackFiles a fp).label) := by
  simp only [trackFiles]
  split
  · split
    · split
      · split
        · rename_i osc s heq hsw
          right
          refine ⟨by assumption, hsw, ?_⟩
          simpa using heq
        · left; simp
      · left; simp
    · left; simp
  · left; simp

theorem trackFiles_filePaths_le (a : Agent) (fp : Option String)
    (h : a.filePaths.length ≤ 30) :
    (trackFiles a fp).filePaths.length ≤ 30 := by
  simp only [trackFiles]
  split
  · have hfps : (if 30 < (a.filePaths ++ [normalizeSlashes (fp.getD "")]).length then
        (a.filePaths ++ [normalizeSlashes (fp.getD "")]).drop
          ((a.filePaths ++ [normalizeSlashes (fp.getD "")]).length - 30)
      else (a.filePaths ++ [normalizeSlashes (fp.getD "")])).length ≤ 30 := by
      split
      · simp only [List.length_drop]
        omega
      · rename_i hlen
        simp only [not_lt, List.length_append, List.length_singleton] at hlen
        simpa using hlen
    split
    · split
      · split
        · simpa using hfps
        · simpa using hfps
      · simpa using hfps
    · simpa using hfps
  · simpa using h

/-- C6: `inferRoleFromFiles` returns a category exactly when some
pattern matches at least twice: the returned label belongs to a pattern
whose match count is at least 2, strictly above every earlier pattern's
count and at least every later pattern's count (ties go to the earlier
declaration); it returns nothing precisely when every count is below 2.
The inferred category is applied as the agent's label by `trackFiles`
only when the agent has no task-derived label and its label still has
the placeholder shape (starts with `"Agent "`); the tracked file-path
history never exceeds 30 entries. -/
theorem claim6_role_inference (paths : List String) :
    (∀ lbl, inferRoleFromFiles paths = some lbl →
      ∃ l1 x l2, countedPatterns paths = l1 ++ x :: l2 ∧ x.1 = lbl ∧ 2 ≤ x.2 ∧
        (∀ y ∈ l1, y.2 < x.2) ∧ (∀ y ∈ l2, y.2 ≤ x.2)) ∧
    (inferRoleFromFiles paths = none ↔ ∀ y ∈ countedPatterns paths, y.2 < 2) ∧
    (∀ (a : Agent) (fp : Option String),
      (trackFiles a fp).label ≠ a.label →
        a.taskLabel = none ∧ startsWithAgent a.label = true ∧
        inferRoleFromFiles (trackFiles a fp).filePaths = some (trackFiles a fp).label) ∧
    (∀ (a : Agent) (fp : Option String), a.filePaths.length ≤ 30 →
      (trackFiles a fp).filePaths.length ≤ 30) := by
  have hsnd := bestLoop_snd (countedPatterns paths) none 0
  refine ⟨?_, ⟨?_, ?_⟩, ?_, ?_⟩
  · intro lbl hl
    simp only [inferRoleFromFiles] at hl
    by_cases h2 : 2 ≤ (bestLoop (countedPatterns paths) none 0).2
    · rw [if_pos h2] at hl
      have hM : 0 < maxCount (countedPatterns paths) := by
        rw [hsnd] at h2
        omega
      obtain ⟨l1, x, l2, hsp, hx2, hlt, hfst⟩ :=
        bestLoop_argmax (countedPatterns paths) none 0 hM
      refine ⟨l1, x, l2, hsp, ?_, ?_, ?_, ?_⟩
      · rw [hfst] at hl
        exact Option.some.inj hl
      · rw [hx2]
        rw [hsnd] at h2
        omega
      · intro y hy
        rw [hx2]
        exact hlt y hy
      · intro y hy
        rw [hx2]
        exact le_maxCount _ y (by rw [hsp]; simp [hy])
    · rw [if_neg h2] at hl
      cases hl
  · intro hn y hy
    simp only [inferRoleFromFiles] at hn
    by_cases h2 : 2 ≤ (bestLoop (countedPatterns paths) none 0).2
    · rw [if_pos h2] at hn
      have hM : 0 < maxCount (countedPatterns paths) := by
        rw [hsnd] at h2
        omega
      obtain ⟨l1, x, l2, hsp, hx2, hlt, hfst⟩ :=
        bestLoop_argmax (countedPatterns paths) none 0 hM
      rw [hfst] at hn
      cases hn
    · have hy2 := le_maxCount (countedPatterns paths) y hy
      rw [hsnd] at h2
      omega
  · intro hall
    simp only [inferRoleFromFiles]
    rw [if_neg]
    rw [hsnd]
    have := maxCount_lt (countedPatterns paths) 2 (by omega) hall
    omega
  · intro a fp hne
    rcases trackFiles_label a fp with h | h
    · exact absurd h hne
    · exact h
  · intro a fp h
    exact trackFiles_filePaths_le a fp h

/-- C6 witness: two paths each matching the test pattern once give the
"Tests" category (count 2 meets the threshold); the characterization
instantiates at that history. -/
theorem claim6_witness :
    inferRoleFromFiles ["a.test.js", "b.test.js"] = some "Tests" ∧
    ∃ l1 x l2, countedPatterns ["a.test.js", "b.test.js"] = l1 ++ x :: l2 ∧
      x.1 = "Tests" ∧ 2 ≤ x.2 ∧ (∀ y ∈ l1, y.2 < x.2) ∧ (∀ y ∈ l2, y.2 ≤ x.2) := by
  refine ⟨by decide, ?_⟩
  exact (claim6_role_inference ["a.test.js", "b.test.js"]).1 "Tests" (by decide)

end SwarmObserver
